import Mathlib

/-!
Verification of the fan-out/fan-in command core of the aster caching proxy
(`src/libaster/src/protocol/mc.rs`).  The Rust code shares one mutable
`Command` record among several `Cmd` handles through `Rc<RefCell<_>>`; the
embedding flattens this sharing: a `Cmd` is a record plus its notifier value,
sub-handles are stored as records inside the parent's record (they share the
parent's notifier), and every mutation is explicit state passing.
Machine integers are `Nat` with an explicit `% 2^w` where overflow matters
(the `u8` retry cycle, the `u16` notifier expectation).

The `Message` entity (`mc/msg.rs`), the `Notify` primitive
(`utils/notify.rs`) and the `AsError` type (`com.rs`) are consumed by this
core but are not part of the excerpted source, so they are modelled from the
specification; each such definition is marked `Modelled from the spec`.
-/

/-- Modelled from the spec: the transport error taxonomy of `com::AsError`.
Only `BadMessage` (structurally invalid input) is distinguished by this core;
every other error kind is collapsed into `Other`. -/
inductive AsError where
  | BadMessage
  | Other
deriving DecidableEq, Repr

/-- Modelled from the spec: one parsed protocol unit (`mc::msg::Message`),
opaque to this core.  `payload` is its serialized byte content and
`subUnits` is the result of decomposing it into zero-or-more independently
routable sub-units (`Message::mk_subs`). -/
inductive Message where
  | mk (payload : List Nat) (subUnits : List Message)

/-- The serialized byte content of a message. -/
def Message.payload : Message → List Nat
  | .mk p _ => p

/-- Decomposition into sub-units (`Message::mk_subs`). -/
def Message.mk_subs : Message → List Message
  | .mk _ s => s

/-- Modelled from the spec: the trailing frame terminator written after
sub-replies (the bytes of "END\r\n"). -/
def Message.ends_bytes : List Nat := [69, 78, 68, 13, 10]

/-- Modelled from the spec: `Message::try_save_ends` appends the trailing
frame terminator to the buffer. -/
def Message.try_save_ends (_req : Message) (dst : List Nat) : List Nat :=
  dst ++ Message.ends_bytes

/-- Modelled from the spec: `Message::save_reply` serializes a reply into the
buffer.  Serialization details are out of scope, so the reply's byte content
is appended as-is; the Rust `Result` error path of serialization has no
counterpart because the modelled serialization is total. -/
def Message.save_reply (_req reply : Message) (dst : List Nat) : List Nat :=
  dst ++ reply.payload

/-- Modelled from the spec: `Message::save_req` serializes the request itself
into the buffer. -/
def Message.save_req (req : Message) (dst : List Nat) : List Nat :=
  dst ++ req.payload

/-- Modelled from the spec: the synthetic health-check request
(`Message::version_request`, the bytes of "version\r\n"); it has no
sub-units. -/
def Message.version_request : Message :=
  .mk [118, 101, 114, 115, 105, 111, 110, 13, 10] []

/-- Modelled from the spec: the synthetic malformed-input request
(`Message::raw_inline_reply`); it has no sub-units. -/
def Message.raw_inline_reply : Message := .mk [] []

/-- Modelled from the spec: converting a transport error into an in-protocol
reply message (`IntoReply` for `AsError`, the bytes of "ERROR\r\n"). -/
def AsError.into_reply : AsError → Message
  | _ => .mk [69, 82, 82, 79, 82, 13, 10] []

/-- Modelled from the spec: `Message::parse` reads one unit from the byte
buffer: more bytes are needed while no line terminator (10 = LF) is present;
a complete line is well-formed exactly when it opens with byte 103; anything
else is structurally invalid (`BadMessage`). -/
def Message.parse (src : List Nat) : Except AsError (Option Message) :=
  if src.contains 10 then
    if src.head? = some 103 then .ok (some (.mk src []))
    else .error AsError.BadMessage
  else .ok none

/-- `Flags::DONE` (source line 159). -/
def Flags.DONE : Nat := 1

/-- `Flags::ERROR` (source line 160). -/
def Flags.ERROR : Nat := 2

/-- `Flags::empty()`. -/
def Flags.empty : Nat := 0

/-- `MAX_CYCLE` (source line 19). -/
def MAX_CYCLE : Nat := 8

/-- `CmdType` (source lines 163-169). -/
inductive CmdType where
  | Read
  | Write
  | Ctrl
  | NotSupport
deriving DecidableEq, Repr

/-- The `Command` record (source lines 171-181).  `flags` is the `u8` bit
set, `cycle` the `u8` retry counter.  In Rust `subs` is
`Option<Vec<Cmd>>` where each sub shares the parent's notifier through
`Rc`; the embedding stores the sub records themselves (the shared notifier
is carried once, by the handle, see `Cmd`). -/
inductive Command where
  | mk (ctype : CmdType) (flags : Nat) (cycle : Nat) (req : Message)
       (reply : Option Message) (subs : Option (List Command))

def Command.ctype : Command → CmdType
  | .mk t _ _ _ _ _ => t

def Command.flags : Command → Nat
  | .mk _ f _ _ _ _ => f

def Command.cycle : Command → Nat
  | .mk _ _ c _ _ _ => c

def Command.req : Command → Message
  | .mk _ _ _ r _ _ => r

def Command.reply : Command → Option Message
  | .mk _ _ _ _ r _ => r

def Command.subs : Command → Option (List Command)
  | .mk _ _ _ _ _ s => s

/-- `Command::is_done` (source lines 184-186): the DONE status bit. -/
def Command.is_done (c : Command) : Bool :=
  c.flags &&& Flags.DONE == Flags.DONE

/-- `Command::is_error` (source lines 188-190): the ERROR status bit. -/
def Command.is_error (c : Command) : Bool :=
  c.flags &&& Flags.ERROR == Flags.ERROR

/-- `Command::can_cycle` (source lines 192-194). -/
def Command.can_cycle (c : Command) : Bool :=
  c.cycle < MAX_CYCLE

/-- `Command::add_cycle` (source lines 196-198): `self.cycle += 1` on a
`u8`, so the increment wraps at `2^8`. -/
def Command.add_cycle : Command → Command
  | .mk t f cy r rep s => .mk t f ((cy + 1) % 256) r rep s

/-- `Command::set_reply` (source lines 200-202). -/
def Command.set_reply : Command → Message → Command
  | .mk t f cy r _ s, reply => .mk t f cy r (some reply) s

/-- `Command::set_done` (source lines 204-206): `flags |= DONE`. -/
def Command.set_done : Command → Command
  | .mk t f cy r rep s => .mk t (f ||| Flags.DONE) cy r rep s

/-- `Command::set_error` (source lines 208-210): `flags |= ERROR`. -/
def Command.set_error : Command → Command
  | .mk t f cy r rep s => .mk t (f ||| Flags.ERROR) cy r rep s

/-- Modelled from the spec: the Completion Notifier (`utils::notify::Notify`).
`expect` is the fixed `u16` expectation, `count` the live handle count,
`task` whether a waiter is currently registered, and `fired` the number of
wakeups actually delivered to a waiter. -/
structure Notify where
  expect : Nat
  count : Nat
  task : Bool
  fired : Nat
deriving DecidableEq, Repr

/-- Modelled from the spec: `Notify::empty()`, the inert notifier of
internally generated, waiter-less requests. -/
def Notify.empty : Notify :=
  { expect := 0, count := 0, task := false, fired := 0 }

/-- Modelled from the spec: `Notify::set_expect`, fixing the baseline; the
Rust argument is cast `as u16`. -/
def Notify.set_expect (n : Notify) (e : Nat) : Notify :=
  { n with expect := e % 65536 }

/-- Modelled from the spec: `Notify::notify` wakes the registered waiter, at
most once per registration; a no-op when nothing is registered. -/
def Notify.notify (n : Notify) : Notify :=
  if n.task then { n with task := false, fired := n.fired + 1 } else n

/-- `impl Drop for Cmd` (source lines 27-37): one release.  Reads the
expectation, decrements the live count returning its pre-decrement value
`origin`, and fires the wakeup exactly when `origin - 1` equals the
expectation.  Returns the new notifier state together with `origin`.
(The subtraction is `Nat` truncated subtraction; the Rust `u16` wrap at
`origin = 0` is outside every reachable release sequence.) -/
def Cmd.drop_release (n : Notify) : Notify × Nat :=
  let origin := n.count
  let n1 : Notify := { n with count := n.count - 1 }
  if origin - 1 = n.expect then (n1.notify, origin) else (n1, origin)

/-- Release `m` handles one after the other. -/
def Notify.releaseN (n : Notify) : Nat → Notify
  | 0 => n
  | m + 1 => (Cmd.drop_release (Notify.releaseN n m)).1

/-- Release one handle per element of `handles` (the element's identity is
irrelevant to the notifier: every drop performs the same release). -/
def Notify.releaseAll (n : Notify) (handles : List Nat) : Notify :=
  handles.foldl (fun s _ => (Cmd.drop_release s).1) n

/-- Modelled from the spec: the notifier state of a logical request whose
expectation is `e`, while its `e` tracked handles (parent plus subs) are
live and a waiter is registered.  Per the spec the live count exceeds the
fixed baseline (= the expectation) by exactly the tracked handles and the
wakeup fires when the count returns to that baseline, so `count = e + e`. -/
def Notify.armed (e : Nat) : Notify :=
  { expect := e, count := e + e, task := true, fired := 0 }

/-- The `Cmd` handle (source lines 21-25): a shared record plus the shared
notifier, flattened to a value pair. -/
structure Cmd where
  cmd : Command
  notify : Notify

/-- `Cmd::from_msg` (source lines 112-148): decompose the request, fix the
notifier expectation at `1 + number of sub-units`, build one leaf sub-record
per sub-unit, and treat an empty decomposition as no split. -/
def Cmd.from_msg (msg : Message) (notify : Notify) : Cmd :=
  let sub_msgs := msg.mk_subs
  let notify := notify.set_expect (1 + sub_msgs.length)
  let subs := sub_msgs.map fun sub_msg =>
    Command.mk CmdType.Read Flags.empty 0 sub_msg none none
  let subs := if subs.isEmpty then none else some subs
  { cmd := Command.mk CmdType.Read Flags.empty 0 msg none subs,
    notify := notify }

/-- The notifier value carried by each sub-handle built by `Cmd::from_msg`:
every sub receives `notify.clone()` after the expectation was fixed, i.e.
the same notifier as the parent. -/
def Cmd.from_msg_sub_notifies (msg : Message) (notify : Notify) : List Notify :=
  msg.mk_subs.map fun _ => notify.set_expect (1 + msg.mk_subs.length)

/-- `Request::ping_request` for `Cmd` (source lines 44-58). -/
def Cmd.ping_request : Cmd :=
  { cmd := Command.mk CmdType.Read Flags.empty 0 Message.version_request none none,
    notify := Notify.empty }

/-- `Request::subs` for `Cmd` (source lines 70-72): a clone of the sub list. -/
def Cmd.subs (c : Cmd) : Option (List Command) :=
  c.cmd.subs

mutual
/-- `Cmd::is_done` on records (`impl Request for Cmd`, source lines 74-80):
a record with sub-records is done iff all of them are, a record without
sub-records reports its own DONE bit. -/
def Cmd.is_done_rec : Command → Bool
  | .mk _ fl _ _ _ none => fl &&& Flags.DONE == Flags.DONE
  | .mk _ _ _ _ _ (some ss) => Cmd.all_done ss

def Cmd.all_done : List Command → Bool
  | [] => true
  | c :: cs => Cmd.is_done_rec c && Cmd.all_done cs
end

/-- `Request::is_done` for the handle. -/
def Cmd.is_done (c : Cmd) : Bool :=
  Cmd.is_done_rec c.cmd

/-- `Request::add_cycle` for `Cmd` (source lines 82-84). -/
def Cmd.add_cycle (c : Cmd) : Cmd :=
  { c with cmd := c.cmd.add_cycle }

/-- `Request::can_cycle` for `Cmd` (source lines 85-87). -/
def Cmd.can_cycle (c : Cmd) : Bool :=
  c.cmd.can_cycle

/-- `Request::is_error` for `Cmd` (source lines 89-91). -/
def Cmd.is_error (c : Cmd) : Bool :=
  c.cmd.is_error

/-- `Request::valid` for `Cmd` (source lines 93-95). -/
def Cmd.valid (_c : Cmd) : Bool :=
  true

/-- `Request::set_reply` for `Cmd` (source lines 97-101): store the reply,
then mark the record done. -/
def Cmd.set_reply (c : Cmd) (t : Message) : Cmd :=
  { c with cmd := (c.cmd.set_reply t).set_done }

/-- `Request::set_error` for `Cmd` (source lines 103-108): convert the error
into a reply, store it, mark done, mark failed. -/
def Cmd.set_error (c : Cmd) (t : AsError) : Cmd :=
  { c with cmd := ((c.cmd.set_reply t.into_reply).set_done).set_error }

/-- `impl Decoder for FrontCodec` (source lines 216-230): parse one unit;
on `BadMessage` return a synthetic handle already completed and failed with
the ready-made error reply instead of propagating the framing error. -/
def FrontCodec.decode (src : List Nat) : Except AsError (Option Cmd) :=
  match Message.parse src with
  | .ok val => .ok (val.map fun m => Cmd.from_msg m Notify.empty)
  | .error AsError.BadMessage =>
      let cmd := Cmd.from_msg Message.raw_inline_reply Notify.empty
      .ok (some (cmd.set_error AsError.BadMessage))
  | .error err => .error err

mutual
/-- `impl Encoder for FrontCodec` (source lines 232-248) on records.  A
record with sub-records encodes each sub in stored order and then appends
the trailing terminator of its own request; the sub mutations are visible
through the shared `Rc`s, so the updated sub records are written back.  A
record without sub-records takes (`Option::take`) its reply — leaving the
slot empty — and serializes it; a missing reply is the
`expect("reply must exits")` panic, modelled as `none`. -/
def FrontCodec.encode_cmd : Command → List Nat → Option (Command × List Nat)
  | .mk t f cy req rep (some ss), dst =>
      match FrontCodec.encode_subs ss dst with
      | some (ss2, dst2) =>
          some (.mk t f cy req rep (some ss2), Message.try_save_ends req dst2)
      | none => none
  | .mk t f cy req (some r) none, dst =>
      some (.mk t f cy req none none, Message.save_reply req r dst)
  | .mk _ _ _ _ none none, _ => none

def FrontCodec.encode_subs : List Command → List Nat → Option (List Command × List Nat)
  | [], dst => some ([], dst)
  | c :: cs, dst =>
      match FrontCodec.encode_cmd c dst with
      | some (c2, dst2) =>
          match FrontCodec.encode_subs cs dst2 with
          | some (cs2, dst3) => some (c2 :: cs2, dst3)
          | none => none
      | none => none
end

/-- `FrontCodec::encode` on handles. -/
def FrontCodec.encode (item : Cmd) (dst : List Nat) : Option (Cmd × List Nat) :=
  match FrontCodec.encode_cmd item.cmd dst with
  | some (c, d) => some ({ item with cmd := c }, d)
  | none => none

/-- `impl Decoder for BackCodec` (source lines 253-259): a pure parse. -/
def BackCodec.decode (src : List Nat) : Except AsError (Option Message) :=
  Message.parse src

/-- `impl Encoder for BackCodec` (source lines 261-267): serialize the
handle's own request through an immutable borrow; the handle is returned
unchanged to make the absence of mutation explicit. -/
def BackCodec.encode (item : Cmd) (dst : List Nat) : Cmd × List Nat :=
  (item, Message.save_req item.cmd.req dst)

/-- Apply `f` to the element at position `i` of a list (identity beyond the
end): the pure rendering of mutating one shared sub-record in place. -/
def updateNth (f : Command → Command) : Nat → List Command → List Command
  | _, [] => []
  | 0, c :: cs => f c :: cs
  | n + 1, c :: cs => c :: updateNth f n cs

/-- A backend completing sub-handle `i` of a split handle:
`Request::set_reply` on the dispatched sub clone (store the reply, then mark
done, source lines 97-101), visible in the parent's record through the
shared `Rc`. -/
def Cmd.attach_sub_reply (c : Cmd) (i : Nat) (r : Message) : Cmd :=
  match c.cmd with
  | .mk t f cy req rep none => { c with cmd := .mk t f cy req rep none }
  | .mk t f cy req rep (some ss) =>
      { c with cmd := (Command.mk t f cy req rep
          (some (updateNth (fun s => (s.set_reply r).set_done) i ss))) }

/-- Attach a batch of sub-replies, one `(index, reply)` pair at a time, in
the order the backends happened to complete. -/
def Cmd.attach_all (c : Cmd) (l : List (Nat × Message)) : Cmd :=
  l.foldl (fun s p => s.attach_sub_reply p.1 p.2) c

/-- The sub-record list of a fully completed split request whose sub-units
are `msgs` and whose reply for position `j + t` is `r (j + t)`: each sub has
its reply stored and its DONE bit set. -/
def doneSubsFrom (r : Nat → Message) (j : Nat) : List Message → List Command
  | [] => []
  | m :: ms =>
      Command.mk CmdType.Read (Flags.empty ||| Flags.DONE) 0 m (some (r j)) none
        :: doneSubsFrom r (j + 1) ms

/-- The sub-record list left behind by `FrontCodec::encode`: every reply
slot has been taken (`Option::take`), the DONE bits remain set. -/
def clearedSubs : List Message → List Command
  | [] => []
  | m :: ms =>
      Command.mk CmdType.Read (Flags.empty ||| Flags.DONE) 0 m none none
        :: clearedSubs ms

/-- The client-visible byte sequence of the sub-replies in original
construction order: the serialization of reply `r j`, then of `r (j+1)`,
and so on, one per sub-unit. -/
def repliesBytes (r : Nat → Message) (j : Nat) : List Message → List Nat
  | [] => []
  | _ :: ms => (r j).payload ++ repliesBytes r (j + 1) ms

mutual
/-- The global invariant of the spec, as a predicate on record trees:
whenever a record's DONE status bit is set, its reply slot holds a reply;
checked on the record itself and on all of its sub-records. -/
def Command.reply_inv : Command → Bool
  | .mk _ fl _ _ rep none =>
      !(fl &&& Flags.DONE == Flags.DONE) || rep.isSome
  | .mk _ fl _ _ rep (some ss) =>
      (!(fl &&& Flags.DONE == Flags.DONE) || rep.isSome)
        && Command.reply_inv_list ss

/-- The invariant on every record of a list. -/
def Command.reply_inv_list : List Command → Bool
  | [] => true
  | c :: cs => Command.reply_inv c && Command.reply_inv_list cs
end

/-! ### Helper lemmas -/

theorem Cmd.all_done_eq_all (ss : List Command) :
    Cmd.all_done ss = ss.all Cmd.is_done_rec := by
  induction ss with
  | nil => rfl
  | cons c cs ih => simp [Cmd.all_done, List.all_cons, ih]

theorem FrontCodec.encode_cmd_leaf (t : CmdType) (f cy : Nat) (req rep : Message)
    (dst : List Nat) :
    FrontCodec.encode_cmd (Command.mk t f cy req (some rep) none) dst
      = some (Command.mk t f cy req none none, dst ++ rep.payload) := rfl

/-! ### Claim theorems -/

/-- Claim C3: on a handle with sub-handles, `is_done` is the conjunction of
the sub-handles' recursive `is_done`, regardless of the parent record's own
status bits (and of every other parent field); on a handle without
sub-handles it is exactly the record's DONE status bit (`Command::is_done`). -/
theorem is_done_split_and_leaf :
    (∀ (n : Notify) (t : CmdType) (fl cy : Nat) (req : Message)
       (rep : Option Message) (ss : List Command),
       Cmd.is_done { cmd := Command.mk t fl cy req rep (some ss), notify := n }
         = ss.all Cmd.is_done_rec)
  ∧ (∀ (n n' : Notify) (t t' : CmdType) (fl fl' cy cy' : Nat) (req req' : Message)
       (rep rep' : Option Message) (ss : List Command),
       Cmd.is_done { cmd := Command.mk t fl cy req rep (some ss), notify := n }
         = Cmd.is_done { cmd := Command.mk t' fl' cy' req' rep' (some ss), notify := n' })
  ∧ (∀ (n : Notify) (t : CmdType) (fl cy : Nat) (req : Message) (rep : Option Message),
       Cmd.is_done { cmd := Command.mk t fl cy req rep none, notify := n }
         = Command.is_done (Command.mk t fl cy req rep none)) := by
  refine ⟨?_, ?_, ?_⟩
  · intro n t fl cy req rep ss
    simp [Cmd.is_done, Cmd.is_done_rec, Cmd.all_done_eq_all]
  · intro n n' t t' fl fl' cy cy' req req' rep rep' ss
    simp [Cmd.is_done, Cmd.is_done_rec]
  · intro n t fl cy req rep
    rfl

/-- Claim C5: on every structurally invalid input, `FrontCodec::decode`
returns `Ok(Some(handle))` — never a decode error — and the returned handle
is failed, complete, and carries the ready-made bad-input error reply. -/
theorem decode_malformed (src : List Nat)
    (h : Message.parse src = .error AsError.BadMessage) :
    FrontCodec.decode src
      = .ok (some ((Cmd.from_msg Message.raw_inline_reply Notify.empty).set_error
          AsError.BadMessage))
  ∧ ((Cmd.from_msg Message.raw_inline_reply Notify.empty).set_error
       AsError.BadMessage).is_error = true
  ∧ ((Cmd.from_msg Message.raw_inline_reply Notify.empty).set_error
       AsError.BadMessage).is_done = true
  ∧ ((Cmd.from_msg Message.raw_inline_reply Notify.empty).set_error
       AsError.BadMessage).cmd.reply = some (AsError.into_reply AsError.BadMessage) := by
  refine ⟨?_, by decide, by decide, rfl⟩
  unfold FrontCodec.decode
  rw [h]

theorem decode_malformed_w :
    Message.parse [97, 10] = .error AsError.BadMessage
  ∧ FrontCodec.decode [97, 10]
      = .ok (some ((Cmd.from_msg Message.raw_inline_reply Notify.empty).set_error
          AsError.BadMessage)) :=
  ⟨rfl, (decode_malformed [97, 10] rfl).1⟩

/-- Claim C7: `can_cycle` is true for every retry-cycle value in `0..7` and
false at `8`; after exactly 8 `add_cycle` calls on a freshly constructed
record, `can_cycle` is false. -/
theorem can_cycle_bound :
    (∀ c : Command, c.cycle < 8 → c.can_cycle = true)
  ∧ (∀ c : Command, c.cycle = 8 → c.can_cycle = false)
  ∧ Cmd.can_cycle
      (Cmd.add_cycle (Cmd.add_cycle (Cmd.add_cycle (Cmd.add_cycle
        (Cmd.add_cycle (Cmd.add_cycle (Cmd.add_cycle (Cmd.add_cycle
          Cmd.ping_request)))))))) = false := by
  refine ⟨?_, ?_, by decide⟩
  · intro c h
    simp only [Command.can_cycle, MAX_CYCLE, decide_eq_true_eq]
    exact h
  · intro c h
    simp only [Command.can_cycle, MAX_CYCLE, decide_eq_false_iff_not]
    omega

theorem can_cycle_bound_w :
    (Command.mk CmdType.Read 0 3 Message.raw_inline_reply none none).cycle < 8
  ∧ (Command.mk CmdType.Read 0 3 Message.raw_inline_reply none none).can_cycle = true
  ∧ (Command.mk CmdType.Read 0 8 Message.raw_inline_reply none none).cycle = 8
  ∧ (Command.mk CmdType.Read 0 8 Message.raw_inline_reply none none).can_cycle = false :=
  ⟨by decide, can_cycle_bound.1 _ (by decide), by decide, can_cycle_bound.2.1 _ (by decide)⟩

/-- Claim C8: `add_cycle` increments the `u8` retry-cycle counter
unconditionally (wrapping at `2^8`) and never errors, for every current
cycle value; cycle values at or beyond the maximum only make `can_cycle`
false. -/
theorem add_cycle_total (c : Command) (h : 8 ≤ c.cycle) :
    (∀ d : Command, (Command.add_cycle d).cycle = (d.cycle + 1) % 256)
  ∧ Command.can_cycle c = false := by
  constructor
  · intro d; cases d; rfl
  · simp only [Command.can_cycle, MAX_CYCLE, decide_eq_false_iff_not]
    omega

theorem add_cycle_total_w :
    8 ≤ (Command.mk CmdType.Read 0 255 Message.raw_inline_reply none none).cycle
  ∧ (Command.add_cycle (Command.mk CmdType.Read 0 255 Message.raw_inline_reply none none)).cycle
      = (255 + 1) % 256
  ∧ (Command.mk CmdType.Read 0 255 Message.raw_inline_reply none none).can_cycle = false :=
  ⟨by decide,
   (add_cycle_total (Command.mk CmdType.Read 0 255 Message.raw_inline_reply none none)
      (by decide)).1 _,
   (add_cycle_total (Command.mk CmdType.Read 0 255 Message.raw_inline_reply none none)
      (by decide)).2⟩

/-- Claim C9: `BackCodec::encode` appends exactly the serialization of the
handle's own request to the buffer, independent of its sub-handles and
every other field, and leaves the handle's state unchanged. -/
theorem back_encode_own (c : Cmd) (c2 : Cmd) (dst : List Nat)
    (h : c2.cmd.req = c.cmd.req) :
    (∀ (d : Cmd) (buf : List Nat), BackCodec.encode d buf = (d, buf ++ d.cmd.req.payload))
  ∧ (BackCodec.encode c2 dst).2 = (BackCodec.encode c dst).2 := by
  constructor
  · intro d buf; rfl
  · simp [BackCodec.encode, Message.save_req, h]

theorem back_encode_own_w :
    ({ cmd := Command.mk CmdType.Read 1 5 (Message.mk [1] []) (some (Message.mk [2] []))
         (some [Command.mk CmdType.Read 0 0 (Message.mk [3] []) none none]),
       notify := Notify.empty } : Cmd).cmd.req
      = ({ cmd := Command.mk CmdType.Read 0 0 (Message.mk [1] []) none none,
           notify := Notify.empty } : Cmd).cmd.req
  ∧ (BackCodec.encode
       { cmd := Command.mk CmdType.Read 1 5 (Message.mk [1] []) (some (Message.mk [2] []))
           (some [Command.mk CmdType.Read 0 0 (Message.mk [3] []) none none]),
         notify := Notify.empty } [9]).2
      = (BackCodec.encode
          { cmd := Command.mk CmdType.Read 0 0 (Message.mk [1] []) none none,
            notify := Notify.empty } [9]).2 :=
  ⟨rfl,
   (back_encode_own
      { cmd := Command.mk CmdType.Read 0 0 (Message.mk [1] []) none none,
        notify := Notify.empty }
      { cmd := Command.mk CmdType.Read 1 5 (Message.mk [1] []) (some (Message.mk [2] []))
          (some [Command.mk CmdType.Read 0 0 (Message.mk [3] []) none none]),
        notify := Notify.empty } [9] rfl).2⟩

theorem Notify.releaseN_shift (m : Nat) : ∀ n : Notify,
    Notify.releaseN n (m + 1) = Notify.releaseN (Cmd.drop_release n).1 m := by
  induction m with
  | zero => intro n; rfl
  | succ m ih =>
      intro n
      show (Cmd.drop_release (Notify.releaseN n (m + 1))).1
         = (Cmd.drop_release (Notify.releaseN (Cmd.drop_release n).1 m)).1
      rw [ih n]

theorem Notify.releaseAll_eq_releaseN (l : List Nat) : ∀ n : Notify,
    Notify.releaseAll n l = Notify.releaseN n l.length := by
  induction l with
  | nil => intro n; rfl
  | cons x xs ih =>
      intro n
      show Notify.releaseAll (Cmd.drop_release n).1 xs = Notify.releaseN n (xs.length + 1)
      rw [ih, Notify.releaseN_shift]

theorem Notify.releaseN_armed (k : Nat) : ∀ j, j ≤ k →
    Notify.releaseN (Notify.armed (k + 1)) j
      = { expect := k + 1, count := (k + 1) + (k + 1) - j, task := true, fired := 0 } := by
  intro j
  induction j with
  | zero => intro _; simp [Notify.releaseN, Notify.armed]
  | succ j ih =>
      intro h
      have hj : j ≤ k := Nat.le_of_succ_le h
      show (Cmd.drop_release (Notify.releaseN (Notify.armed (k + 1)) j)).1 = _
      rw [ih hj]
      unfold Cmd.drop_release
      rw [if_neg (by simp; omega)]
      simp [Notify.mk.injEq]
      omega

theorem Notify.releaseN_armed_full (k : Nat) :
    Notify.releaseN (Notify.armed (k + 1)) (k + 1)
      = { expect := k + 1, count := k + 1, task := false, fired := 1 } := by
  show (Cmd.drop_release (Notify.releaseN (Notify.armed (k + 1)) k)).1 = _
  rw [Notify.releaseN_armed k k (Nat.le_refl k)]
  unfold Cmd.drop_release
  rw [if_pos (by simp; omega)]
  simp [Notify.notify, Notify.mk.injEq]
  omega

/-- Claim C2: for a logical request whose notifier expectation was fixed at
`k + 1`, releasing the `k + 1` tracked handles in any order (any permutation
of the handles, each drop performing the same release on the shared
notifier) fires the wakeup exactly once; no release among the first `k`
fires it, and the firing release is exactly the one whose pre-decrement live
count equals `expectation + 1`. -/
theorem notify_fires_once (k : Nat) (order : List Nat)
    (h : order.Perm (List.range (k + 1))) :
    (Notify.releaseAll (Notify.armed (k + 1)) order).fired = 1
  ∧ (∀ j, j ≤ k → (Notify.releaseN (Notify.armed (k + 1)) j).fired = 0)
  ∧ (Cmd.drop_release (Notify.releaseN (Notify.armed (k + 1)) k)).2 = (k + 1) + 1 := by
  have hlen : order.length = k + 1 := by simpa using h.length_eq
  refine ⟨?_, ?_, ?_⟩
  · rw [Notify.releaseAll_eq_releaseN, hlen, Notify.releaseN_armed_full]
  · intro j hj
    rw [Notify.releaseN_armed k j hj]
  · rw [Notify.releaseN_armed k k (Nat.le_refl k)]
    simp [Cmd.drop_release, apply_ite Prod.snd]
    omega

theorem notify_fires_once_w :
    ([1, 0] : List Nat).Perm (List.range 2)
  ∧ (Notify.releaseAll (Notify.armed 2) [1, 0]).fired = 1
  ∧ (Cmd.drop_release (Notify.releaseN (Notify.armed 2) 1)).2 = 3 :=
  ⟨by decide, (notify_fires_once 1 [1, 0] (by decide)).1,
   (notify_fires_once 1 [1, 0] (by decide)).2.2⟩

theorem Cmd.from_msg_split (msg : Message) (notify : Notify) (h : msg.mk_subs ≠ []) :
    Cmd.from_msg msg notify
      = { cmd := Command.mk CmdType.Read Flags.empty 0 msg none
            (some (msg.mk_subs.map fun m =>
              Command.mk CmdType.Read Flags.empty 0 m none none)),
          notify := notify.set_expect (1 + msg.mk_subs.length) } := by
  cases hm : msg.mk_subs with
  | nil => exact absurd hm h
  | cons a as =>
      unfold Cmd.from_msg
      rw [hm]
      rfl

/-- Claim C6: a request whose decomposition yields `k ≥ 1` sub-units
produces a handle with exactly `k` sub-handles and notifier expectation
`k + 1` (the `u16` cast is the identity below `2^16`); a request whose
decomposition is empty produces a plain leaf with no sub-handles. -/
theorem from_msg_expectation :
    (∀ (msg : Message) (notify : Notify),
       1 ≤ msg.mk_subs.length → 1 + msg.mk_subs.length < 65536 →
       (Cmd.from_msg msg notify).cmd.subs
           = some (msg.mk_subs.map fun m =>
               Command.mk CmdType.Read Flags.empty 0 m none none)
         ∧ (msg.mk_subs.map fun m =>
               Command.mk CmdType.Read Flags.empty 0 m none none).length
             = msg.mk_subs.length
         ∧ (Cmd.from_msg msg notify).notify.expect = msg.mk_subs.length + 1)
  ∧ (∀ (msg : Message) (notify : Notify), msg.mk_subs = [] →
       (Cmd.from_msg msg notify).cmd.subs = none) := by
  constructor
  · intro msg notify h1 h2
    have hne : msg.mk_subs ≠ [] := by
      intro e
      rw [e] at h1
      simp at h1
    rw [Cmd.from_msg_split msg notify hne]
    refine ⟨rfl, by simp, ?_⟩
    show (notify.set_expect (1 + msg.mk_subs.length)).expect = msg.mk_subs.length + 1
    simp [Notify.set_expect]
    omega
  · intro msg notify h
    unfold Cmd.from_msg
    rw [h]
    rfl

theorem from_msg_expectation_w :
    1 ≤ (Message.mk [103] [Message.mk [104] [], Message.mk [105] []]).mk_subs.length
  ∧ 1 + (Message.mk [103] [Message.mk [104] [], Message.mk [105] []]).mk_subs.length < 65536
  ∧ (Cmd.from_msg (Message.mk [103] [Message.mk [104] [], Message.mk [105] []])
       Notify.empty).notify.expect
      = (Message.mk [103] [Message.mk [104] [], Message.mk [105] []]).mk_subs.length + 1 :=
  ⟨by decide, by decide,
   (from_msg_expectation.1 (Message.mk [103] [Message.mk [104] [], Message.mk [105] []])
      Notify.empty (by decide) (by decide)).2.2⟩

/-- Claim C10: fan-out depth is one level — every sub-handle created at
split time is a leaf (no sub-handles of its own) starting at cycle 0 with
empty status flags and no reply; each sub carries the parent's notifier
value; consequently the recursive `is_done` of a split handle bottoms out
after one level, in the record-level DONE bits of its subs. -/
theorem from_msg_one_level :
    (∀ (msg : Message) (notify : Notify) (ss : List Command),
       (Cmd.from_msg msg notify).cmd.subs = some ss →
       ∀ s ∈ ss, s.subs = none ∧ s.flags = Flags.empty ∧ s.cycle = 0 ∧ s.reply = none)
  ∧ (∀ (msg : Message) (notify : Notify),
       Cmd.from_msg_sub_notifies msg notify
         = List.replicate msg.mk_subs.length (Cmd.from_msg msg notify).notify)
  ∧ (∀ (msg : Message) (notify : Notify) (ss : List Command),
       (Cmd.from_msg msg notify).cmd.subs = some ss →
       Cmd.is_done (Cmd.from_msg msg notify) = ss.all Command.is_done) := by
  refine ⟨?_, ?_, ?_⟩
  · intro msg notify ss hss s hs
    cases hm : msg.mk_subs with
    | nil =>
        have hnone : (Cmd.from_msg msg notify).cmd.subs = none := by
          unfold Cmd.from_msg
          rw [hm]
          rfl
        rw [hnone] at hss
        simp at hss
    | cons a as =>
        rw [Cmd.from_msg_split msg notify (by rw [hm]; simp)] at hss
        simp only [Command.subs, Option.some.injEq] at hss
        subst hss
        obtain ⟨m, _, rfl⟩ := List.mem_map.mp hs
        exact ⟨rfl, rfl, rfl, rfl⟩
  · intro msg notify
    show msg.mk_subs.map (fun _ => notify.set_expect (1 + msg.mk_subs.length))
       = List.replicate msg.mk_subs.length (notify.set_expect (1 + msg.mk_subs.length))
    have hconst : ∀ (l : List Message) (c : Notify),
        l.map (fun _ => c) = List.replicate l.length c := by
      intro l c
      induction l with
      | nil => rfl
      | cons a as ih =>
          simp only [List.map_cons, List.length_cons, List.replicate_succ]
          exact congrArg _ ih
    exact hconst _ _
  · intro msg notify ss hss
    cases hm : msg.mk_subs with
    | nil =>
        have hnone : (Cmd.from_msg msg notify).cmd.subs = none := by
          unfold Cmd.from_msg
          rw [hm]
          rfl
        rw [hnone] at hss
        simp at hss
    | cons a as =>
        rw [Cmd.from_msg_split msg notify (by rw [hm]; simp)] at hss ⊢
        simp only [Command.subs, Option.some.injEq] at hss
        subst hss
        simp only [Cmd.is_done, Cmd.is_done_rec, Cmd.all_done_eq_all]
        have hpt : ∀ msgs : List Message,
            (List.map (fun m => Command.mk CmdType.Read Flags.empty 0 m none none)
                msgs).all Cmd.is_done_rec
              = (List.map (fun m => Command.mk CmdType.Read Flags.empty 0 m none none)
                  msgs).all Command.is_done := by
          intro msgs
          induction msgs with
          | nil => rfl
          | cons b bs ih =>
              simp only [List.map_cons, List.all_cons, ih]
              rfl
        exact hpt msg.mk_subs

theorem updateNth_getElem? (f : Command → Command) (l : List Command) : ∀ (i t : Nat),
    (updateNth f i l)[t]? = if t = i then l[t]?.map f else l[t]? := by
  induction l with
  | nil => intro i t; simp [updateNth]
  | cons c cs ih =>
      intro i t
      cases i with
      | zero =>
          cases t with
          | zero => simp [updateNth]
          | succ t => simp [updateNth]
      | succ i =>
          cases t with
          | zero => simp [updateNth]
          | succ t => simpa [updateNth] using ih i t

theorem foldl_update_getElem? (g : Nat → Command → Command) (order : List Nat) :
    ∀ (base : List Command), order.Nodup → ∀ t,
    (order.foldl (fun acc i => updateNth (g i) i acc) base)[t]?
      = if t ∈ order then base[t]?.map (g t) else base[t]? := by
  induction order with
  | nil => intro base _ t; simp
  | cons i rest ih =>
      intro base hnd t
      have hsplit := List.nodup_cons.mp hnd
      simp only [List.foldl_cons]
      rw [ih (updateNth (g i) i base) hsplit.2 t, updateNth_getElem?]
      by_cases ht : t ∈ rest
      · have htne : t ≠ i := fun e => hsplit.1 (e ▸ ht)
        simp [ht, htne, List.mem_cons]
      · by_cases hti : t = i
        · subst hti
          simp [ht, List.mem_cons]
        · simp [ht, hti, List.mem_cons]

theorem doneSubsFrom_getElem? (r : Nat → Message) (msgs : List Message) : ∀ (j t : Nat),
    (doneSubsFrom r j msgs)[t]?
      = msgs[t]?.map (fun m =>
          Command.mk CmdType.Read (Flags.empty ||| Flags.DONE) 0 m (some (r (j + t))) none) := by
  induction msgs with
  | nil => intro j t; simp [doneSubsFrom]
  | cons m ms ih =>
      intro j t
      cases t with
      | zero => simp [doneSubsFrom]
      | succ t =>
          have harith : j + 1 + t = j + (t + 1) := by omega
          simpa [doneSubsFrom, harith] using ih (j + 1) t

theorem attach_all_some (pairs : List (Nat × Message)) :
    ∀ (t : CmdType) (f cy : Nat) (req : Message) (rep : Option Message)
      (base : List Command) (n : Notify),
    Cmd.attach_all { cmd := Command.mk t f cy req rep (some base), notify := n } pairs
      = { cmd := Command.mk t f cy req rep
            (some (pairs.foldl
              (fun acc p => updateNth (fun s => (s.set_reply p.2).set_done) p.1 acc) base)),
          notify := n } := by
  induction pairs with
  | nil => intros; rfl
  | cons p ps ih =>
      intro t f cy req rep base n
      show Cmd.attach_all
          (Cmd.attach_sub_reply { cmd := Command.mk t f cy req rep (some base), notify := n }
            p.1 p.2) ps = _
      rw [show Cmd.attach_sub_reply
            { cmd := Command.mk t f cy req rep (some base), notify := n } p.1 p.2
          = { cmd := Command.mk t f cy req rep
                (some (updateNth (fun s => (s.set_reply p.2).set_done) p.1 base)),
              notify := n } from rfl]
      rw [ih]
      rfl

theorem attach_perm_canonical (msgs : List Message) (r : Nat → Message) (order : List Nat)
    (h : order.Perm (List.range msgs.length)) :
    (order.foldl (fun acc i => updateNth (fun s => (s.set_reply (r i)).set_done) i acc)
        (msgs.map fun m => Command.mk CmdType.Read Flags.empty 0 m none none))
      = doneSubsFrom r 0 msgs := by
  have hnd : order.Nodup := h.symm.nodup (List.nodup_range _)
  have hmem : ∀ t, t ∈ order ↔ t < msgs.length := fun t => by
    rw [h.mem_iff, List.mem_range]
  apply List.ext_getElem?
  intro t
  rw [foldl_update_getElem? (fun i s => (s.set_reply (r i)).set_done) order _ hnd t,
    doneSubsFrom_getElem?]
  by_cases ht : t < msgs.length
  · rw [if_pos ((hmem t).mpr ht), List.getElem?_map, List.getElem?_eq_getElem ht]
    simp [Command.set_reply, Command.set_done]
  · have hnone : msgs[t]? = none := by
      rw [List.getElem?_eq_none_iff]
      omega
    rw [if_neg (fun hh => ht ((hmem t).mp hh)), List.getElem?_map, hnone]
    rfl

theorem encode_subs_done (r : Nat → Message) (msgs : List Message) : ∀ (j : Nat) (dst : List Nat),
    FrontCodec.encode_subs (doneSubsFrom r j msgs) dst
      = some (clearedSubs msgs, dst ++ repliesBytes r j msgs) := by
  induction msgs with
  | nil => intro j dst; simp [doneSubsFrom, FrontCodec.encode_subs, clearedSubs, repliesBytes]
  | cons m ms ih =>
      intro j dst
      simp only [doneSubsFrom, FrontCodec.encode_subs, FrontCodec.encode_cmd_leaf]
      rw [ih (j + 1) (dst ++ (r j).payload)]
      simp [clearedSubs, repliesBytes, List.append_assoc]

theorem attach_pairs_canonical (msgs : List Message) (r : Nat → Message) (order : List Nat)
    (h : order.Perm (List.range msgs.length)) :
    (order.map fun i => (i, r i)).foldl
        (fun acc p => updateNth (fun s => (s.set_reply p.2).set_done) p.1 acc)
        (msgs.map fun m => Command.mk CmdType.Read Flags.empty 0 m none none)
      = doneSubsFrom r 0 msgs := by
  rw [List.foldl_map]
  exact attach_perm_canonical msgs r order h

/-- Claim C1: for a split handle, `FrontCodec::encode` writes each
sub-handle's reply in the original construction order of the sub-handles and
then appends the parent's trailing frame terminator, for every order in
which the sub-replies were attached; for a non-split handle it writes the
single stored reply directly. -/
theorem front_encode_order :
    (∀ (msg : Message) (notify : Notify) (r : Nat → Message) (order : List Nat)
       (dst : List Nat),
       msg.mk_subs ≠ [] →
       order.Perm (List.range msg.mk_subs.length) →
       FrontCodec.encode
           (Cmd.attach_all (Cmd.from_msg msg notify) (order.map fun i => (i, r i))) dst
         = some
             ({ cmd := Command.mk CmdType.Read Flags.empty 0 msg none
                  (some (clearedSubs msg.mk_subs)),
                notify := notify.set_expect (1 + msg.mk_subs.length) },
              (dst ++ repliesBytes r 0 msg.mk_subs) ++ Message.ends_bytes))
  ∧ (∀ (c : Cmd) (rep : Message) (dst : List Nat),
       c.cmd.subs = none → c.cmd.reply = some rep →
       FrontCodec.encode c dst
         = some
             ({ cmd := Command.mk c.cmd.ctype c.cmd.flags c.cmd.cycle c.cmd.req none none,
                notify := c.notify },
              dst ++ rep.payload)) := by
  constructor
  · intro msg notify r order dst h1 h2
    rw [Cmd.from_msg_split msg notify h1, attach_all_some,
      attach_pairs_canonical msg.mk_subs r order h2]
    unfold FrontCodec.encode
    simp only [FrontCodec.encode_cmd]
    rw [encode_subs_done r msg.mk_subs 0 dst]
    simp [Message.try_save_ends, List.append_assoc]
  · intro c rep dst h1 h2
    obtain ⟨cmd, n⟩ := c
    obtain ⟨t, f, cy, req, rp, ss⟩ := cmd
    simp only [Command.subs] at h1
    simp only [Command.reply] at h2
    subst h1
    subst h2
    rfl

theorem front_encode_order_w :
    (Message.mk [103, 10]
       [Message.mk [103, 97, 10] [], Message.mk [103, 98, 10] []]).mk_subs ≠ []
  ∧ ([1, 0] : List Nat).Perm
      (List.range (Message.mk [103, 10]
        [Message.mk [103, 97, 10] [], Message.mk [103, 98, 10] []]).mk_subs.length)
  ∧ FrontCodec.encode
      (Cmd.attach_all
        (Cmd.from_msg
          (Message.mk [103, 10]
            [Message.mk [103, 97, 10] [], Message.mk [103, 98, 10] []]) Notify.empty)
        ([1, 0].map fun i => (i, Message.mk [100 + i] []))) []
      = some
          ({ cmd := Command.mk CmdType.Read Flags.empty 0
               (Message.mk [103, 10]
                 [Message.mk [103, 97, 10] [], Message.mk [103, 98, 10] []]) none
               (some (clearedSubs (Message.mk [103, 10]
                 [Message.mk [103, 97, 10] [], Message.mk [103, 98, 10] []]).mk_subs)),
             notify := Notify.empty.set_expect (1 + (Message.mk [103, 10]
               [Message.mk [103, 97, 10] [], Message.mk [103, 98, 10] []]).mk_subs.length) },
           (([] : List Nat) ++ repliesBytes (fun i => Message.mk [100 + i] []) 0
               (Message.mk [103, 10]
                 [Message.mk [103, 97, 10] [], Message.mk [103, 98, 10] []]).mk_subs)
             ++ Message.ends_bytes)
  ∧ (({ cmd := Command.mk CmdType.Read 1 0 (Message.mk [103, 10] [])
          (some (Message.mk [104] [])) none, notify := Notify.empty } : Cmd)).cmd.subs = none
  ∧ FrontCodec.encode
      ({ cmd := Command.mk CmdType.Read 1 0 (Message.mk [103, 10] [])
          (some (Message.mk [104] [])) none, notify := Notify.empty } : Cmd) [7]
      = some
          ({ cmd := Command.mk CmdType.Read 1 0 (Message.mk [103, 10] []) none none,
             notify := Notify.empty },
           [7] ++ (Message.mk [104] []).payload) :=
  ⟨by simp [Message.mk_subs],
   by decide,
   (front_encode_order.1
      (Message.mk [103, 10] [Message.mk [103, 97, 10] [], Message.mk [103, 98, 10] []])
      Notify.empty (fun i => Message.mk [100 + i] []) [1, 0] []
      (by simp [Message.mk_subs]) (by decide)),
   rfl,
   (front_encode_order.2
      ({ cmd := Command.mk CmdType.Read 1 0 (Message.mk [103, 10] [])
          (some (Message.mk [104] [])) none, notify := Notify.empty } : Cmd)
      (Message.mk [104] []) [7] rfl rfl)⟩

theorem Command.reply_inv_set_reply_done (c : Command) (m : Message)
    (h : Command.reply_inv c = true) :
    Command.reply_inv ((c.set_reply m).set_done) = true := by
  obtain ⟨t, f, cy, req, rp, ss⟩ := c
  cases ss with
  | none => simp [Command.set_reply, Command.set_done, Command.reply_inv]
  | some l =>
      simp only [Command.reply_inv, Bool.and_eq_true] at h
      show Command.reply_inv
          (Command.mk t (f ||| Flags.DONE) cy req (some m) (some l)) = true
      simp only [Command.reply_inv, Bool.and_eq_true]
      exact ⟨by simp, h.2⟩

theorem Command.reply_inv_list_updateNth (m : Message) : ∀ (i : Nat) (ss : List Command),
    Command.reply_inv_list ss = true →
    Command.reply_inv_list (updateNth (fun s => (s.set_reply m).set_done) i ss) = true := by
  intro i ss
  induction ss generalizing i with
  | nil => intro h; simpa [updateNth] using h
  | cons c cs ih =>
      intro h
      simp only [Command.reply_inv_list, Bool.and_eq_true] at h
      cases i with
      | zero =>
          simp only [updateNth, Command.reply_inv_list, Bool.and_eq_true]
          exact ⟨Command.reply_inv_set_reply_done c m h.1, h.2⟩
      | succ i =>
          simp only [updateNth, Command.reply_inv_list, Bool.and_eq_true]
          exact ⟨h.1, ih i h.2⟩

theorem Command.reply_inv_list_leaves (msgs : List Message) :
    Command.reply_inv_list (msgs.map fun m =>
      Command.mk CmdType.Read Flags.empty 0 m none none) = true := by
  induction msgs with
  | nil => rfl
  | cons m ms ih =>
      simp only [List.map_cons, Command.reply_inv_list, Bool.and_eq_true]
      exact ⟨rfl, ih⟩

theorem Command.reply_inv_from_msg (msg : Message) (notify : Notify) :
    Command.reply_inv (Cmd.from_msg msg notify).cmd = true := by
  cases hm : msg.mk_subs with
  | nil =>
      have : (Cmd.from_msg msg notify).cmd
          = Command.mk CmdType.Read Flags.empty 0 msg none none := by
        unfold Cmd.from_msg
        rw [hm]
        rfl
      rw [this]
      rfl
  | cons a as =>
      rw [Cmd.from_msg_split msg notify (by rw [hm]; simp)]
      show Command.reply_inv (Command.mk CmdType.Read Flags.empty 0 msg none
        (some (msg.mk_subs.map fun m =>
          Command.mk CmdType.Read Flags.empty 0 m none none))) = true
      simp only [Command.reply_inv, Bool.and_eq_true]
      exact ⟨rfl, Command.reply_inv_list_leaves msg.mk_subs⟩

/-- Claim C4 (counterexample): the reply-present invariant is not preserved
by `FrontCodec::encode`.  A leaf handle that is Completed with a stored
reply — a state produced by `set_reply` and satisfying the invariant —
comes out of `encode` with its reply slot emptied (`Option::take`) while the
DONE bit is still set, violating the invariant. -/
theorem reply_inv_encode_cex :
    Command.reply_inv
      (Cmd.set_reply
        { cmd := Command.mk CmdType.Read Flags.empty 0 (Message.mk [103] []) none none,
          notify := Notify.empty } (Message.mk [104] [])).cmd = true
  ∧ FrontCodec.encode
      (Cmd.set_reply
        { cmd := Command.mk CmdType.Read Flags.empty 0 (Message.mk [103] []) none none,
          notify := Notify.empty } (Message.mk [104] [])) []
      = some
          ({ cmd := Command.mk CmdType.Read (Flags.empty ||| Flags.DONE) 0
               (Message.mk [103] []) none none,
             notify := Notify.empty }, [104])
  ∧ (Command.mk CmdType.Read (Flags.empty ||| Flags.DONE) 0
       (Message.mk [103] []) none none).is_done = true
  ∧ Command.reply_inv
      (Command.mk CmdType.Read (Flags.empty ||| Flags.DONE) 0
        (Message.mk [103] []) none none) = false :=
  ⟨rfl, rfl, rfl, rfl⟩

/-- Claim C4 (amended): the invariant "a record whose DONE bit is set holds
a reply" is preserved by `ping_request`, `decode`, `set_reply`, `set_error`,
sub-reply attachment, `add_cycle` and `BackCodec::encode`; `FrontCodec::encode`
is the exception: it consumes the reply slot of every leaf it writes while
leaving the DONE bit set, so the invariant holds up to — but not across —
front encoding. -/
theorem reply_inv_preservation :
    Command.reply_inv Cmd.ping_request.cmd = true
  ∧ (∀ (src : List Nat) (c : Cmd),
       FrontCodec.decode src = .ok (some c) → Command.reply_inv c.cmd = true)
  ∧ (∀ (c : Cmd) (m : Message),
       Command.reply_inv c.cmd = true → Command.reply_inv ((Cmd.set_reply c m).cmd) = true)
  ∧ (∀ (c : Cmd) (e : AsError),
       Command.reply_inv c.cmd = true → Command.reply_inv ((Cmd.set_error c e).cmd) = true)
  ∧ (∀ (c : Cmd) (i : Nat) (m : Message),
       Command.reply_inv c.cmd = true →
       Command.reply_inv ((Cmd.attach_sub_reply c i m).cmd) = true)
  ∧ (∀ c : Cmd, Command.reply_inv ((Cmd.add_cycle c).cmd) = Command.reply_inv c.cmd)
  ∧ (∀ (c : Cmd) (dst : List Nat), (BackCodec.encode c dst).1 = c)
  ∧ (∀ (t : CmdType) (f cy : Nat) (req rep : Message) (n : Notify) (dst : List Nat),
       FrontCodec.encode { cmd := Command.mk t f cy req (some rep) none, notify := n } dst
         = some ({ cmd := Command.mk t f cy req none none, notify := n },
             dst ++ rep.payload)) := by
  refine ⟨rfl, ?_, ?_, ?_, ?_, ?_, fun c dst => rfl, fun t f cy req rep n dst => rfl⟩
  · intro src c h
    unfold FrontCodec.decode at h
    cases hp : Message.parse src with
    | ok val =>
        rw [hp] at h
        cases val with
        | none => simp at h
        | some m =>
            simp only [Option.map_some', Except.ok.injEq, Option.some.injEq] at h
            subst h
            exact Command.reply_inv_from_msg m Notify.empty
    | error e =>
        rw [hp] at h
        cases e with
        | BadMessage =>
            simp only [Except.ok.injEq, Option.some.injEq] at h
            subst h
            rfl
        | Other => simp at h
  · intro c m h
    exact Command.reply_inv_set_reply_done c.cmd m h
  · intro c e h
    obtain ⟨cmd, n⟩ := c
    obtain ⟨t, f, cy, req, rp, ss⟩ := cmd
    cases ss with
    | none =>
        simp [Cmd.set_error, Command.set_reply, Command.set_done, Command.set_error,
          Command.reply_inv]
    | some l =>
        simp only [Command.reply_inv, Bool.and_eq_true] at h
        show Command.reply_inv (Command.mk t ((f ||| Flags.DONE) ||| Flags.ERROR) cy req
          (some (AsError.into_reply e)) (some l)) = true
        simp only [Command.reply_inv, Bool.and_eq_true]
        exact ⟨by simp, h.2⟩
  · intro c i m h
    obtain ⟨cmd, n⟩ := c
    obtain ⟨t, f, cy, req, rp, ss⟩ := cmd
    cases ss with
    | none => exact h
    | some l =>
        simp only [Command.reply_inv, Bool.and_eq_true] at h
        show Command.reply_inv (Command.mk t f cy req rp
          (some (updateNth (fun s => (s.set_reply m).set_done) i l))) = true
        simp only [Command.reply_inv, Bool.and_eq_true]
        exact ⟨h.1, Command.reply_inv_list_updateNth m i l h.2⟩
  · intro c
    obtain ⟨cmd, n⟩ := c
    obtain ⟨t, f, cy, req, rp, ss⟩ := cmd
    cases ss with
    | none => rfl
    | some l => rfl

theorem reply_inv_preservation_w :
    Command.reply_inv
      ({ cmd := Command.mk CmdType.Read Flags.empty 0 (Message.mk [105] []) none none,
         notify := Notify.empty } : Cmd).cmd = true
  ∧ Command.reply_inv
      ((Cmd.set_reply
        { cmd := Command.mk CmdType.Read Flags.empty 0 (Message.mk [105] []) none none,
          notify := Notify.empty } (Message.mk [106] [])).cmd) = true
  ∧ FrontCodec.decode [103, 10]
      = .ok (some (Cmd.from_msg (Message.mk [103, 10] []) Notify.empty))
  ∧ Command.reply_inv (Cmd.from_msg (Message.mk [103, 10] []) Notify.empty).cmd = true :=
  ⟨rfl,
   reply_inv_preservation.2.2.1
     { cmd := Command.mk CmdType.Read Flags.empty 0 (Message.mk [105] []) none none,
       notify := Notify.empty } (Message.mk [106] []) rfl,
   rfl,
   reply_inv_preservation.2.1 [103, 10]
     (Cmd.from_msg (Message.mk [103, 10] []) Notify.empty) rfl⟩

theorem from_msg_one_level_w :
    (Cmd.from_msg (Message.mk [103] [Message.mk [104] [], Message.mk [105] []])
        Notify.empty).cmd.subs
      = some [Command.mk CmdType.Read Flags.empty 0 (Message.mk [104] []) none none,
              Command.mk CmdType.Read Flags.empty 0 (Message.mk [105] []) none none]
  ∧ ((Command.mk CmdType.Read Flags.empty 0 (Message.mk [104] []) none none).subs = none
     ∧ (Command.mk CmdType.Read Flags.empty 0 (Message.mk [104] []) none none).flags
         = Flags.empty
     ∧ (Command.mk CmdType.Read Flags.empty 0 (Message.mk [104] []) none none).cycle = 0
     ∧ (Command.mk CmdType.Read Flags.empty 0 (Message.mk [104] []) none none).reply = none)
  ∧ Cmd.is_done
      (Cmd.from_msg (Message.mk [103] [Message.mk [104] [], Message.mk [105] []])
        Notify.empty)
      = ([Command.mk CmdType.Read Flags.empty 0 (Message.mk [104] []) none none,
          Command.mk CmdType.Read Flags.empty 0 (Message.mk [105] []) none none]).all
          Command.is_done :=
  ⟨rfl,
   from_msg_one_level.1 (Message.mk [103] [Message.mk [104] [], Message.mk [105] []])
     Notify.empty
     [Command.mk CmdType.Read Flags.empty 0 (Message.mk [104] []) none none,
      Command.mk CmdType.Read Flags.empty 0 (Message.mk [105] []) none none] rfl
     (Command.mk CmdType.Read Flags.empty 0 (Message.mk [104] []) none none)
     (List.Mem.head _),
   from_msg_one_level.2.2 (Message.mk [103] [Message.mk [104] [], Message.mk [105] []])
     Notify.empty
     [Command.mk CmdType.Read Flags.empty 0 (Message.mk [104] []) none none,
      Command.mk CmdType.Read Flags.empty 0 (Message.mk [105] []) none none] rfl⟩
